import Mathlib

/-!
Shallow embedding of the codecrafters-redis-rust core, translated from the
repository sources:
  - `src/parser/mod.rs`  (RESP wire decoder: `Parser::parse`,
    `Parser::parse_array`, `Parser::parse_bulk_string`, `Parser::parse_until_crlf`)
  - `src/store/redis.rs` (`Store::get` / `Store::set` / `Store::set_ex`)
  - `src/lib.rs`         (`handle_connection`, `Command::from_resp`,
    `Command::parse_command`, `Command::parse_expiry`, `Command::execute`)
  - `src/parser/rdb.rs`  (`RDBParser::parse_header`)

Bytes are modelled as `Nat` (values 0..255), Rust `String`s as the list of
their UTF-8 bytes, `Instant`/`Duration` as `Nat` nanoseconds, and the
`HashMap` behind the store as an association list with one entry per key.
Fallible code returns an explicit result type; a Rust panic (reachable in
`parse_until_crlf` through `0..input.len() - 1` underflowing on an empty
slice) is a distinct `panic` outcome.  The only recursion of the decoder
that is not structural (arrays re-entering `Parser::parse`) is paid for
with a fuel parameter; `Parser.parse` supplies `input.length + 1` fuel,
which dominates the nesting depth since every array level consumes at
least three bytes before recursing.
-/

namespace CodecraftersRedis

/-! ### UTF-8 modelling (`String::from_utf8_lossy`, `std::str::from_utf8`) -/

/-- A UTF-8 continuation byte (`0x80..=0xBF`). -/
def isCont (b : Nat) : Bool := decide (0x80 ≤ b ∧ b ≤ 0xBF)

/-- Lower bound of the admissible second byte of a multi-byte sequence,
following the WHATWG/Unicode table that Rust's UTF-8 validation uses. -/
def contLo (b : Nat) : Nat := if b = 0xE0 then 0xA0 else if b = 0xF0 then 0x90 else 0x80

/-- Upper bound of the admissible second byte of a multi-byte sequence. -/
def contHi (b : Nat) : Nat := if b = 0xED then 0x9F else if b = 0xF4 then 0x8F else 0xBF

/-- Is `c1` admissible as the second byte of a sequence led by `b`? -/
def firstContOk (b c1 : Nat) : Bool := decide (contLo b ≤ c1 ∧ c1 ≤ contHi b)

/-- The UTF-8 encoding of U+FFFD, substituted for each maximal invalid
subpart by `String::from_utf8_lossy`. -/
def replacementBytes : List Nat := [0xEF, 0xBF, 0xBD]

/-- `String::from_utf8_lossy` at the byte level: valid UTF-8 sequences are
copied verbatim, each maximal invalid subpart is replaced by U+FFFD
(`EF BF BD`), and decoding resumes at the first byte after the subpart. -/
def utf8LossyBytes : List Nat → List Nat
  | [] => []
  | b :: rest =>
    if b < 0x80 then b :: utf8LossyBytes rest
    else if 0xC2 ≤ b ∧ b ≤ 0xDF then
      match rest with
      | c1 :: r1 =>
        if isCont c1 then b :: c1 :: utf8LossyBytes r1
        else replacementBytes ++ utf8LossyBytes (c1 :: r1)
      | [] => replacementBytes
    else if 0xE0 ≤ b ∧ b ≤ 0xEF then
      match rest with
      | c1 :: r1 =>
        if firstContOk b c1 then
          match r1 with
          | c2 :: r2 =>
            if isCont c2 then b :: c1 :: c2 :: utf8LossyBytes r2
            else replacementBytes ++ utf8LossyBytes (c2 :: r2)
          | [] => replacementBytes
        else replacementBytes ++ utf8LossyBytes (c1 :: r1)
      | [] => replacementBytes
    else if 0xF0 ≤ b ∧ b ≤ 0xF4 then
      match rest with
      | c1 :: r1 =>
        if firstContOk b c1 then
          match r1 with
          | c2 :: r2 =>
            if isCont c2 then
              match r2 with
              | c3 :: r3 =>
                if isCont c3 then b :: c1 :: c2 :: c3 :: utf8LossyBytes r3
                else replacementBytes ++ utf8LossyBytes (c3 :: r3)
              | [] => replacementBytes
            else replacementBytes ++ utf8LossyBytes (c2 :: r2)
          | [] => replacementBytes
        else replacementBytes ++ utf8LossyBytes (c1 :: r1)
      | [] => replacementBytes
    else replacementBytes ++ utf8LossyBytes rest

/-- `std::str::from_utf8` validity at the byte level. -/
def validUtf8 : List Nat → Bool
  | [] => true
  | b :: rest =>
    if b < 0x80 then validUtf8 rest
    else if 0xC2 ≤ b ∧ b ≤ 0xDF then
      match rest with
      | c1 :: r1 => isCont c1 && validUtf8 r1
      | [] => false
    else if 0xE0 ≤ b ∧ b ≤ 0xEF then
      match rest with
      | c1 :: r1 =>
        firstContOk b c1 &&
          (match r1 with
           | c2 :: r2 => isCont c2 && validUtf8 r2
           | [] => false)
      | [] => false
    else if 0xF0 ≤ b ∧ b ≤ 0xF4 then
      match rest with
      | c1 :: r1 =>
        firstContOk b c1 &&
          (match r1 with
           | c2 :: r2 =>
             isCont c2 &&
               (match r2 with
                | c3 :: r3 => isCont c3 && validUtf8 r3
                | [] => false)
           | [] => false)
      | [] => false
    else false

/-! ### Rust decimal parsing (`str::parse::<u32>` / `::<u64>`) -/

/-- ASCII decimal digit byte. -/
def isDigitByte (b : Nat) : Bool := decide (48 ≤ b ∧ b ≤ 57)

/-- Value of a most-significant-first list of ASCII digit bytes. -/
def digitsVal (l : List Nat) : Nat := l.foldl (fun a b => a * 10 + (b - 48)) 0

/-- The digit phase of `str::parse` for an unsigned integer type: one or
more ASCII digits whose value does not exceed `maxVal`. -/
def rustParseDigits (maxVal : Nat) (ds : List Nat) : Option Nat :=
  if ds = [] then none
  else if ds.all isDigitByte then
    if digitsVal ds ≤ maxVal then some (digitsVal ds) else none
  else none

/-- `str::parse` for an unsigned integer type with maximum value `maxVal`
(`u32`: `2^32 - 1`, `u64`: `2^64 - 1`): one optional leading `+`, then one
or more ASCII digits, overflow rejected. -/
def rustParseNat (maxVal : Nat) (s : List Nat) : Option Nat :=
  match s with
  | b :: rest => if b = 43 then rustParseDigits maxVal rest else rustParseDigits maxVal (b :: rest)
  | [] => rustParseDigits maxVal []

/-- Decimal ASCII rendering of a natural number (`u32`/`usize` formatting). -/
def natToDecBytes (n : Nat) : List Nat :=
  if n = 0 then [48] else ((Nat.digits 10 n).reverse).map (fun d => d + 48)

/-- Rust `str::to_uppercase`, restricted to its ASCII action (the only part
exercised by the command layer, whose comparisons are against ASCII names). -/
def asciiUpper (s : List Nat) : List Nat :=
  s.map (fun b => if 97 ≤ b ∧ b ≤ 122 then b - 32 else b)

/-- Does the byte list contain the two-byte sequence CR LF? -/
def hasCrlf : List Nat → Bool
  | [] => false
  | [_] => false
  | a :: b :: rest => (a = 13 && b = 10) || hasCrlf (b :: rest)

/-! ### RESP wire decoder (`src/parser/mod.rs`) -/

/-- `ParserError` from `src/parser/mod.rs`. -/
inductive ParserError : Type where
  | incompleteInput
  | unsupportedCommand
  | crlfNotFound
  | invalidInput
deriving DecidableEq, Repr

/-- `RESPOutput` from `src/parser/mod.rs`; the enum defines only these two
variants (the others are a `TODO` comment in the source). -/
inductive RESPOutput : Type where
  | array (elems : List RESPOutput)
  | bulkString (s : List Nat)

/-- Outcome of running a fallible Rust function: a value, an error, a panic,
or fuel exhaustion of the embedding (never reached with the fuel
`Parser.parse` supplies). -/
inductive PRes (ε α : Type) : Type where
  | ok (val : α)
  | err (e : ε)
  | panic
  | noFuel

/-- `Parser::parse_until_crlf`: scans `0..input.len() - 1` for a CR LF pair,
returning the bytes before it and the bytes after it.  On an empty slice the
bound `input.len() - 1` underflows its `usize` arithmetic and the function
panics (overflow panic in debug builds, wrap-around followed by an
out-of-bounds index in release builds). -/
def Parser.parseUntilCrlf : List Nat → PRes ParserError (List Nat × List Nat)
  | [] => .panic
  | [_] => .err .crlfNotFound
  | a :: b :: rest =>
    if a = 13 ∧ b = 10 then .ok ([], rest)
    else
      match Parser.parseUntilCrlf (b :: rest) with
      | .ok (pre, post) => .ok (a :: pre, post)
      | other => other

/-- `Parser::parse_bulk_string`: length line up to CR LF, parsed as `u32`
after a lossy UTF-8 conversion; then content up to the next CR LF, converted
lossily to a `String` whose byte length (truncated `as u32`) must equal the
declared length. -/
def Parser.parseBulkString (payload : List Nat) : PRes ParserError (RESPOutput × List Nat) :=
  match Parser.parseUntilCrlf payload with
  | .err _ => .err .crlfNotFound
  | .panic => .panic
  | .noFuel => .noFuel
  | .ok (lenBytes, rem) =>
    match rustParseNat (2 ^ 32 - 1) (utf8LossyBytes lenBytes) with
    | none => .err .invalidInput
    | some length =>
      match Parser.parseUntilCrlf rem with
      | .err _ => .err .crlfNotFound
      | .panic => .panic
      | .noFuel => .noFuel
      | .ok (result, rem') =>
        let res := utf8LossyBytes result
        if res.length % 2 ^ 32 ≠ length then .err .invalidInput
        else .ok (.bulkString res, rem')

/-- The element loop of `Parser::parse_array`: parse `n` successive frames
with the recursive entry point `f`, replacing any element error by
`InvalidInput` as the source does. -/
def Parser.parseElemsWith (f : List Nat → PRes ParserError (RESPOutput × List Nat)) :
    Nat → List Nat → PRes ParserError (List RESPOutput × List Nat)
  | 0, rem => .ok ([], rem)
  | n + 1, rem =>
    match f rem with
    | .ok (v, rem') =>
      match Parser.parseElemsWith f n rem' with
      | .ok (vs, rem'') => .ok (v :: vs, rem'')
      | .err e => .err e
      | .panic => .panic
      | .noFuel => .noFuel
    | .err _ => .err .invalidInput
    | .panic => .panic
    | .noFuel => .noFuel

/-- `Parser::parse_array`: element count up to CR LF parsed as `u32` (any
`parse_until_crlf` failure reported as `CRLFNotFound`, any count-parse
failure as `InvalidInput`), then that many recursively parsed elements. -/
def Parser.parseArray (f : List Nat → PRes ParserError (RESPOutput × List Nat))
    (payload : List Nat) : PRes ParserError (RESPOutput × List Nat) :=
  match Parser.parseUntilCrlf payload with
  | .err _ => .err .crlfNotFound
  | .panic => .panic
  | .noFuel => .noFuel
  | .ok (numBytes, remaining) =>
    match rustParseNat (2 ^ 32 - 1) (utf8LossyBytes numBytes) with
    | none => .err .invalidInput
    | some n =>
      match Parser.parseElemsWith f n remaining with
      | .ok (vs, rem) => .ok (.array vs, rem)
      | .err e => .err e
      | .panic => .panic
      | .noFuel => .noFuel

/-- Fuelled form of `Parser::parse`: empty input or a leading NUL byte is
`IncompleteInput`; `*` (42) dispatches to the array parser, `$` (36) to the
bulk-string parser, and every other first byte is `UnsupportedCommand`. -/
def Parser.parseF : Nat → List Nat → PRes ParserError (RESPOutput × List Nat)
  | 0, _ => .noFuel
  | _ + 1, [] => .err .incompleteInput
  | fuel + 1, b :: payload =>
    if b = 0 then .err .incompleteInput
    else if b = 42 then Parser.parseArray (Parser.parseF fuel) payload
    else if b = 36 then Parser.parseBulkString payload
    else .err .unsupportedCommand

/-- `Parser::parse`.  The fuel `input.length + 1` strictly dominates the
array nesting depth, since each nesting level consumes at least three bytes
before re-entering `parse`. -/
def Parser.parse (input : List Nat) : PRes ParserError (RESPOutput × List Nat) :=
  Parser.parseF (input.length + 1) input

/-! ### Store (`src/store/redis.rs`)

`Instant` is modelled as a `Nat` (nanoseconds of a monotonic clock) and
`Duration` as a `Nat` of nanoseconds; `Duration::from_secs n` is
`n * 1000000000` and `Duration::from_millis n` is `n * 1000000`.  The
`HashMap<String, Entry>` is an association list with at most one entry per
key (insert filters the key out first, like `HashMap::insert` replacing). -/

/-- `DataType` from `src/store/datatype.rs` (only the `String` variant). -/
inductive DataType : Type where
  | str (s : List Nat)
deriving DecidableEq, Repr

/-- `ToString for DataType`. -/
def DataType.toBytes : DataType → List Nat
  | .str s => s

/-- `Entry` from `src/store/redis.rs`. -/
structure Entry : Type where
  value : DataType
  expiry : Option Nat
deriving DecidableEq, Repr

/-- The map guarded by the store's reader/writer lock. -/
def Store : Type := List (List Nat × Entry)

/-- `HashMap::get`. -/
def Store.lookup (st : Store) (key : List Nat) : Option Entry :=
  (st.find? (fun p => p.1 = key)).map (fun p => p.2)

/-- `HashMap::insert` (replaces any existing entry for the key). -/
def Store.insert (st : Store) (key : List Nat) (e : Entry) : Store :=
  (key, e) :: st.filter (fun p => ¬ p.1 = key)

/-- `HashMap::remove`. -/
def Store.remove (st : Store) (key : List Nat) : Store :=
  st.filter (fun p => ¬ p.1 = key)

/-- `Store::set`: inserts with `expiry: None`. -/
def Store.set (st : Store) (key : List Nat) (value : DataType) : Store :=
  st.insert key ⟨value, none⟩

/-- `Store::set_ex`: inserts with `expiry: Some(Instant::now() + expiry)`,
where `now` is the instant of the call. -/
def Store.setEx (st : Store) (key : List Nat) (value : DataType) (expiry now : Nat) : Store :=
  st.insert key ⟨value, some (now + expiry)⟩

/-- First phase of `Store::get`: under the reader lock, does the entry exist
and is `Instant::now() > expiry`? -/
def Store.isExpiredAt (st : Store) (key : List Nat) (now : Nat) : Bool :=
  match st.lookup key with
  | some entry =>
    match entry.expiry with
    | some expiry => decide (now > expiry)
    | none => false
  | none => false

/-- Second phase of `Store::get`: if the first phase observed expiry, take
the writer lock, remove the key (with no recheck of the entry) and return
`None`; otherwise read the value under a fresh reader lock.  `st` is the
map state at the time this phase acquires its lock. -/
def Store.getSecondPhase (st : Store) (key : List Nat) (isExpired : Bool) :
    Option DataType × Store :=
  if isExpired then (none, st.remove key)
  else ((st.lookup key).map (fun e => e.value), st)

/-- `Store::get` run without interleaving: both phases see the same map. -/
def Store.get (st : Store) (key : List Nat) (now : Nat) : Option DataType × Store :=
  st.getSecondPhase key (st.isExpiredAt key now)

/-! ### Command layer and connection handler (`src/lib.rs`) -/

/-- `RedisError` from `src/error.rs` (the `Io` variant is irrelevant here). -/
inductive RedisError : Type where
  | io
  | parser (e : ParserError)
  | unknownCommand
  | invalidArguments
deriving DecidableEq, Repr

/-- `Command` from `src/lib.rs`; `Option Nat` is the optional expiry
`Duration` in nanoseconds. -/
inductive Command : Type where
  | ping
  | echo (s : List Nat)
  | get (key : List Nat)
  | set (key : List Nat) (value : DataType) (expiry : Option Nat)
  | config (cmd : List Nat) (key : List Nat) (value : Option DataType)
deriving DecidableEq, Repr

/-- The argument-extraction match repeated in `parse_command`: of the
variants `RESPOutput` actually defines, `BulkString` yields its text and
everything else falls to the `_ => None` arm. -/
def argString : RESPOutput → Option (List Nat)
  | .bulkString s => some s
  | _ => none

/-- The value-extraction match of the `SET`/`CONFIG SET` arms:
`BulkString(s)` yields `DataType::from(s.clone())`, everything else falls
to the `_ => None` arm. -/
def argValue : RESPOutput → Option DataType
  | .bulkString s => some (.str s)
  | _ => none

/-- `Command::parse_expiry`: with at most 3 args, no expiry; args 2 and 3
must both be bulk strings; the duration is parsed as `u64` first (failure
is `InvalidArguments` regardless of the option keyword); then `EX` means
seconds, `PX` milliseconds, and any other keyword means no expiry. -/
def Command.parseExpiry (args : List RESPOutput) : Except RedisError (Option Nat) :=
  if args.length ≤ 3 then .ok none
  else
    match args.get? 2, args.get? 3 with
    | some (.bulkString opt), some (.bulkString duration) =>
      match rustParseNat (2 ^ 64 - 1) duration with
      | none => .error .invalidArguments
      | some durationVal =>
        if asciiUpper opt = [69, 88] then .ok (some (durationVal * 1000000000))
        else if asciiUpper opt = [80, 88] then .ok (some (durationVal * 1000000))
        else .ok none
    | _, _ => .error .invalidArguments

/-- `Command::parse_command` (from `src/lib.rs`), over the `RESPOutput`
variants the parser defines. -/
def Command.parseCommand (elements : List RESPOutput) : Except RedisError Command :=
  match elements with
  | [] => .error .invalidArguments
  | command :: args =>
    match command with
    | .bulkString cmd =>
      if asciiUpper cmd = [80, 73, 78, 71] then .ok .ping
      else if asciiUpper cmd = [69, 67, 72, 79] then
        match args.head?.bind argString with
        | some arg => .ok (.echo arg)
        | none => .error .invalidArguments
      else if asciiUpper cmd = [71, 69, 84] then
        match args.head?.bind argString with
        | some key => .ok (.get key)
        | none => .error .invalidArguments
      else if asciiUpper cmd = [83, 69, 84] then
        match args.head?.bind argString with
        | none => .error .invalidArguments
        | some key =>
          match (args.get? 1).bind argValue with
          | none => .error .invalidArguments
          | some value =>
            match Command.parseExpiry args with
            | .error e => .error e
            | .ok expiry => .ok (.set key value expiry)
      else if asciiUpper cmd = [67, 79, 78, 70, 73, 71] then
        match args.head?.bind argString with
        | none => .error .invalidArguments
        | some subcommand =>
          if asciiUpper subcommand = [71, 69, 84] then
            match (args.get? 1).bind argString with
            | some key => .ok (.config [71, 69, 84] key none)
            | none => .error .invalidArguments
          else if asciiUpper subcommand = [83, 69, 84] then
            match (args.get? 1).bind argString with
            | none => .error .invalidArguments
            | some key =>
              match (args.get? 2).bind argValue with
              | some value => .ok (.config [83, 69, 84] key (some value))
              | none => .error .invalidArguments
          else .error .invalidArguments
      else .error .unknownCommand
    | _ => .error .invalidArguments

/-- `Command::from_resp`: an `Array` goes to `parse_command`; of the
remaining variants the parser defines, `BulkString` falls to the
`_ => Err(InvalidArguments)` arm. -/
def Command.fromResp (resp : RESPOutput) : Except RedisError Command :=
  match resp with
  | .array elements => Command.parseCommand elements
  | _ => .error .invalidArguments

/-- `+OK\r\n`. -/
def okResp : List Nat := [43, 79, 75, 13, 10]

/-- `+PONG\r\n`. -/
def pongResp : List Nat := [43, 80, 79, 78, 71, 13, 10]

/-- `$-1\r\n`. -/
def nullBulkResp : List Nat := [36, 45, 49, 13, 10]

/-- `format!("${}\r\n{}\r\n", s.len(), s)`. -/
def bulkResp (s : List Nat) : List Nat :=
  36 :: natToDecBytes s.length ++ 13 :: 10 :: s ++ [13, 10]

/-- `Command::execute`, sequentialized: takes the store map and the current
monotonic instant, returns the response bytes and the updated map. -/
def Command.execute (cmd : Command) (st : Store) (now : Nat) :
    Except RedisError (List Nat × Store) :=
  match cmd with
  | .ping => .ok (pongResp, st)
  | .echo s => .ok (bulkResp s, st)
  | .set key value expiry =>
    match expiry with
    | some duration => .ok (okResp, st.setEx key value duration now)
    | none => .ok (okResp, st.set key value)
  | .get key =>
    match st.get key now with
    | (some value, st') => .ok (bulkResp value.toBytes, st')
    | (none, st') => .ok (nullBulkResp, st')
  | .config cmd key value =>
    if asciiUpper cmd = [71, 69, 84] then
      match st.get key now with
      | (some value, st') => .ok (bulkResp value.toBytes, st')
      | (none, st') => .ok (nullBulkResp, st')
    else if asciiUpper cmd = [83, 69, 84] then
      match value with
      | some value => .ok (okResp, st.set key value)
      | none => .error .invalidArguments
    else .error .invalidArguments

/-- `handle_connection` from `src/lib.rs`, with the socket modelled as the
list of successive read results: an exhausted list or an empty read is the
peer closing (`Ok(())`); otherwise the chunk is parsed and any parser or
command error is propagated by `?`, ending the loop (and with it the
connection); a panic inside the parser unwinds out of the handler.
Returns the responses written and the final map. -/
def handleConnection : List (List Nat) → Store → Nat →
    PRes RedisError (List (List Nat) × Store)
  | [], st, _ => .ok ([], st)
  | chunk :: rest, st, now =>
    if chunk = [] then .ok ([], st)
    else
      match Parser.parse chunk with
      | .err e => .err (.parser e)
      | .panic => .panic
      | .noFuel => .noFuel
      | .ok (output, _) =>
        match Command.fromResp output with
        | .error e => .err e
        | .ok cmd =>
          match cmd.execute st now with
          | .error e => .err e
          | .ok (response, st') =>
            match handleConnection rest st' now with
            | .ok (responses, st'') => .ok (response :: responses, st'')
            | other => other

/-! ### RDB snapshot header (`src/parser/rdb.rs`) -/

/-- `RDBError` from `src/parser/rdb.rs`. -/
inductive RDBError : Type where
  | ioError
  | invalidMagicString
  | unsupportedVersion
  | invalidLength
  | invalidEncoding
  | invalidType
deriving DecidableEq, Repr

/-- `RDBParser::parse_header` over the byte stream: `read_exact` of 5 magic
bytes (shortfall is an IO error), magic must be `REDIS`; `read_exact` of 4
version bytes, which must be UTF-8 (`from_utf8`) and parse as `u32`
(failure of either maps to `InvalidMagicString`); a version other than 11
is `UnsupportedVersion`.  Returns the unread rest of the stream. -/
def RDBParser.parseHeader (input : List Nat) : Except RDBError (List Nat) :=
  if input.length < 5 then .error .ioError
  else if input.take 5 ≠ [82, 69, 68, 73, 83] then .error .invalidMagicString
  else if (input.drop 5).length < 4 then .error .ioError
  else if ¬ validUtf8 ((input.drop 5).take 4) then .error .invalidMagicString
  else
    match rustParseNat (2 ^ 32 - 1) ((input.drop 5).take 4) with
    | none => .error .invalidMagicString
    | some versionNum =>
      if versionNum ≠ 11 then .error .unsupportedVersion
      else .ok ((input.drop 5).drop 4)

/-! ### Helper lemmas about the byte-level functions -/

/-- Lossy UTF-8 conversion is the identity on ASCII byte lists. -/
theorem utf8LossyBytes_ascii : ∀ (l : List Nat), (∀ b ∈ l, b < 0x80) → utf8LossyBytes l = l
  | [], _ => rfl
  | b :: rest, h => by
    have hb : b < 0x80 := h b (List.mem_cons_self b rest)
    have hrest : ∀ x ∈ rest, x < 0x80 := fun x hx => h x (List.mem_cons_of_mem b hx)
    rw [utf8LossyBytes.eq_def]
    simp only [if_pos hb]
    exact congrArg (b :: ·) (utf8LossyBytes_ascii rest hrest)

/-- ASCII byte lists are valid UTF-8. -/
theorem validUtf8_ascii : ∀ (l : List Nat), (∀ b ∈ l, b < 0x80) → validUtf8 l = true
  | [], _ => rfl
  | b :: rest, h => by
    have hb : b < 0x80 := h b (List.mem_cons_self b rest)
    have hrest : ∀ x ∈ rest, x < 0x80 := fun x hx => h x (List.mem_cons_of_mem b hx)
    rw [validUtf8.eq_def]
    simp only [if_pos hb]
    exact validUtf8_ascii rest hrest

theorem foldl_decimal (l : List Nat) : ∀ (a : Nat),
    List.foldl (fun x d => x * 10 + d) a l.reverse = a * 10 ^ l.length + Nat.ofDigits 10 l := by
  induction l with
  | nil => intro a; simp [Nat.ofDigits]
  | cons d l ih =>
    intro a
    simp only [List.reverse_cons, List.foldl_append, List.foldl_cons, List.foldl_nil, ih,
      Nat.ofDigits_cons, List.length_cons, pow_succ]
    ring

theorem foldl_sub48 (l : List Nat) : ∀ (a : Nat),
    List.foldl (fun x b => x * 10 + (b - 48)) a (l.map (fun d => d + 48)) =
      List.foldl (fun x d => x * 10 + d) a l := by
  induction l with
  | nil => intro a; rfl
  | cons d l ih => intro a; simp [ih]

/-- The decimal rendering evaluates back to the same number. -/
theorem digitsVal_natToDecBytes (n : Nat) : digitsVal (natToDecBytes n) = n := by
  by_cases h : n = 0
  · subst h; rfl
  · rw [natToDecBytes, if_neg h, digitsVal, foldl_sub48, foldl_decimal, Nat.ofDigits_digits]
    simp

/-- Every byte of the decimal rendering is an ASCII digit. -/
theorem natToDecBytes_digits (n : Nat) : ∀ b ∈ natToDecBytes n, 48 ≤ b ∧ b ≤ 57 := by
  intro b hb
  by_cases h : n = 0
  · subst h
    simp [natToDecBytes] at hb
    omega
  · simp only [natToDecBytes, if_neg h, List.mem_map, List.mem_reverse] at hb
    obtain ⟨d, hd, rfl⟩ := hb
    have := Nat.digits_lt_base (by norm_num) hd
    omega

theorem natToDecBytes_ne_nil (n : Nat) : natToDecBytes n ≠ [] := by
  by_cases h : n = 0
  · subst h; simp [natToDecBytes]
  · simp only [natToDecBytes, if_neg h]
    simp [Nat.digits_ne_nil_iff_ne_zero.mpr h]

/-- `str::parse` succeeds on the decimal rendering of an in-range number. -/
theorem rustParseNat_natToDecBytes {n maxVal : Nat} (h : n ≤ maxVal) :
    rustParseNat maxVal (natToDecBytes n) = some n := by
  have hdig := natToDecBytes_digits n
  have hall : (natToDecBytes n).all isDigitByte = true := by
    rw [List.all_eq_true]
    intro b hb
    have := hdig b hb
    simp [isDigitByte]
    omega
  have hval := digitsVal_natToDecBytes n
  cases hh : natToDecBytes n with
  | nil => exact absurd hh (natToDecBytes_ne_nil n)
  | cons b rest =>
    have hb : 48 ≤ b ∧ b ≤ 57 := hdig b (by rw [hh]; exact List.mem_cons_self b rest)
    have hb43 : ¬ b = 43 := by omega
    rw [hh] at hall hval
    simp [rustParseNat, rustParseDigits, hb43, hall, hval, h]

/-- Digits accepted by `rustParseDigits` are ASCII bytes. -/
theorem rustParseDigits_ascii {m : Nat} {ds : List Nat} {n : Nat}
    (hp : rustParseDigits m ds = some n) : ∀ b ∈ ds, b < 0x80 := by
  intro b hb
  by_cases h1 : ds = []
  · subst h1; simp at hb
  · by_cases h2 : ds.all isDigitByte = true
    · rw [List.all_eq_true] at h2
      have := h2 b hb
      simp only [isDigitByte, decide_eq_true_eq] at this
      omega
    · simp [rustParseDigits, h1, h2] at hp

/-- A successfully parsed number had only ASCII bytes. -/
theorem rustParseNat_ascii {m : Nat} : ∀ {s : List Nat} {n : Nat},
    rustParseNat m s = some n → ∀ b ∈ s, b < 0x80 := by
  intro s n hp b hb
  cases s with
  | nil => simp [rustParseNat, rustParseDigits] at hp
  | cons c rest =>
    by_cases hc : c = 43
    · subst hc
      simp only [rustParseNat, if_pos rfl] at hp
      rcases List.mem_cons.mp hb with rfl | hmem
      · norm_num
      · exact rustParseDigits_ascii hp b hmem
    · simp only [rustParseNat, if_neg hc] at hp
      exact rustParseDigits_ascii hp b hb

/-- A byte list without CR has no CR LF pair. -/
theorem hasCrlf_eq_false : ∀ (l : List Nat), (∀ b ∈ l, ¬ b = 13) → hasCrlf l = false
  | [], _ => rfl
  | [_], _ => rfl
  | a :: b :: rest, h => by
    have ha : ¬ a = 13 := h a (List.mem_cons_self a (b :: rest))
    have hrec := hasCrlf_eq_false (b :: rest) (fun x hx => h x (List.mem_cons_of_mem a hx))
    simp [hasCrlf, ha, hrec]

/-! ### Lemmas about the RESP decoder -/

/-- If `a` has no CR LF pair, the scan splits exactly at the appended CR LF. -/
theorem parseUntilCrlf_split : ∀ (a : List Nat), hasCrlf a = false → ∀ (b : List Nat),
    Parser.parseUntilCrlf (a ++ 13 :: 10 :: b) = .ok (a, b)
  | [], _, b => by simp [Parser.parseUntilCrlf]
  | [u], _, b => by
    have h1 : ¬ (u = 13 ∧ (13 : Nat) = 10) := by omega
    simp [Parser.parseUntilCrlf, h1]
  | u :: v :: rest, h, b => by
    simp only [hasCrlf, Bool.or_eq_false_iff] at h
    obtain ⟨h1, h2⟩ := h
    have huv : ¬ (u = 13 ∧ v = 10) := by
      intro hc
      simp [hc.1, hc.2] at h1
    have hrec := parseUntilCrlf_split (v :: rest) h2 b
    simp only [List.cons_append] at hrec ⊢
    simp [Parser.parseUntilCrlf, huv, hrec]

/-- A successful CR LF scan is stable under appending further input. -/
theorem parseUntilCrlf_extend (t : List Nat) : ∀ (x p q : List Nat),
    Parser.parseUntilCrlf x = .ok (p, q) →
    Parser.parseUntilCrlf (x ++ t) = .ok (p, q ++ t)
  | [], p, q, h => by simp [Parser.parseUntilCrlf] at h
  | [u], p, q, h => by simp [Parser.parseUntilCrlf] at h
  | u :: v :: rest, p, q, h => by
    by_cases huv : u = 13 ∧ v = 10
    · simp only [Parser.parseUntilCrlf, if_pos huv, PRes.ok.injEq, Prod.mk.injEq] at h
      obtain ⟨rfl, rfl⟩ := h
      simp only [List.cons_append]
      simp [Parser.parseUntilCrlf, huv]
    · cases hrec : Parser.parseUntilCrlf (v :: rest) with
      | ok pr =>
        obtain ⟨pre, post⟩ := pr
        simp only [Parser.parseUntilCrlf, if_neg huv, hrec, PRes.ok.injEq,
          Prod.mk.injEq] at h
        obtain ⟨rfl, rfl⟩ := h
        have hx := parseUntilCrlf_extend t (v :: rest) pre post hrec
        simp only [List.cons_append] at hx ⊢
        simp [Parser.parseUntilCrlf, huv, hx]
      | err e => simp only [Parser.parseUntilCrlf, if_neg huv, hrec] at h; cases h
      | panic => simp only [Parser.parseUntilCrlf, if_neg huv, hrec] at h; cases h
      | noFuel => simp only [Parser.parseUntilCrlf, if_neg huv, hrec] at h; cases h

/-- A successful bulk-string parse is stable under appending further input. -/
theorem parseBulkString_extend (t : List Nat) {p : List Nat} {v : RESPOutput} {r : List Nat}
    (h : Parser.parseBulkString p = .ok (v, r)) :
    Parser.parseBulkString (p ++ t) = .ok (v, r ++ t) := by
  cases h1 : Parser.parseUntilCrlf p with
  | ok pr1 =>
    obtain ⟨lenB, rem⟩ := pr1
    have h1' := parseUntilCrlf_extend t p lenB rem h1
    simp only [Parser.parseBulkString, h1] at h
    simp only [Parser.parseBulkString, h1']
    cases h2 : rustParseNat (2 ^ 32 - 1) (utf8LossyBytes lenB) with
    | none => simp only [h2] at h; cases h
    | some len =>
      simp only [h2] at h ⊢
      cases h3 : Parser.parseUntilCrlf rem with
      | ok pr2 =>
        obtain ⟨result, rem'⟩ := pr2
        have h3' := parseUntilCrlf_extend t rem result rem' h3
        simp only [h3] at h
        simp only [h3']
        by_cases h4 : (utf8LossyBytes result).length % 2 ^ 32 ≠ len
        · rw [if_pos h4] at h; cases h
        · rw [if_neg h4] at h ⊢
          simp only [PRes.ok.injEq, Prod.mk.injEq] at h
          obtain ⟨rfl, rfl⟩ := h
          rfl
      | err e => simp only [h3] at h; cases h
      | panic => simp only [h3] at h; cases h
      | noFuel => simp only [h3] at h; cases h
  | err e => simp only [Parser.parseBulkString, h1] at h; cases h
  | panic => simp only [Parser.parseBulkString, h1] at h; cases h
  | noFuel => simp only [Parser.parseBulkString, h1] at h; cases h

/-- The element loop is stable under appending further input, given that the
element parser pair `(f, g)` is. -/
theorem parseElemsWith_extend (t : List Nat)
    {f g : List Nat → PRes ParserError (RESPOutput × List Nat)}
    (hfg : ∀ x v r, f x = .ok (v, r) → g (x ++ t) = .ok (v, r ++ t)) :
    ∀ (n : Nat) (rem : List Nat) (vs : List RESPOutput) (r : List Nat),
      Parser.parseElemsWith f n rem = .ok (vs, r) →
      Parser.parseElemsWith g n (rem ++ t) = .ok (vs, r ++ t) := by
  intro n
  induction n with
  | zero =>
    intro rem vs r h
    simp only [Parser.parseElemsWith, PRes.ok.injEq, Prod.mk.injEq] at h
    obtain ⟨rfl, rfl⟩ := h
    rfl
  | succ n ih =>
    intro rem vs r h
    cases h1 : f rem with
    | ok pr1 =>
      obtain ⟨v, rem'⟩ := pr1
      have h1' := hfg rem v rem' h1
      simp only [Parser.parseElemsWith, h1] at h
      simp only [Parser.parseElemsWith, h1']
      cases h2 : Parser.parseElemsWith f n rem' with
      | ok pr2 =>
        obtain ⟨vs', rem''⟩ := pr2
        simp only [h2] at h
        simp only [PRes.ok.injEq, Prod.mk.injEq] at h
        obtain ⟨rfl, rfl⟩ := h
        rw [ih rem' vs' rem'' h2]
      | err e => simp only [h2] at h; cases h
      | panic => simp only [h2] at h; cases h
      | noFuel => simp only [h2] at h; cases h
    | err e => simp only [Parser.parseElemsWith, h1] at h; cases h
    | panic => simp only [Parser.parseElemsWith, h1] at h; cases h
    | noFuel => simp only [Parser.parseElemsWith, h1] at h; cases h

/-- An array parse is stable under appending further input, given that the
element parser pair `(f, g)` is. -/
theorem parseArray_extend (t : List Nat)
    {f g : List Nat → PRes ParserError (RESPOutput × List Nat)}
    (hfg : ∀ x v r, f x = .ok (v, r) → g (x ++ t) = .ok (v, r ++ t))
    {p : List Nat} {v : RESPOutput} {r : List Nat}
    (h : Parser.parseArray f p = .ok (v, r)) :
    Parser.parseArray g (p ++ t) = .ok (v, r ++ t) := by
  cases h1 : Parser.parseUntilCrlf p with
  | ok pr1 =>
    obtain ⟨numB, rem⟩ := pr1
    have h1' := parseUntilCrlf_extend t p numB rem h1
    simp only [Parser.parseArray, h1] at h
    simp only [Parser.parseArray, h1']
    cases h2 : rustParseNat (2 ^ 32 - 1) (utf8LossyBytes numB) with
    | none => simp only [h2] at h; cases h
    | some n =>
      simp only [h2] at h ⊢
      cases h3 : Parser.parseElemsWith f n rem with
      | ok pr2 =>
        obtain ⟨vs, rem'⟩ := pr2
        simp only [h3] at h
        simp only [PRes.ok.injEq, Prod.mk.injEq] at h
        obtain ⟨rfl, rfl⟩ := h
        rw [parseElemsWith_extend t hfg n rem vs rem' h3]
      | err e => simp only [h3] at h; cases h
      | panic => simp only [h3] at h; cases h
      | noFuel => simp only [h3] at h; cases h
  | err e => simp only [Parser.parseArray, h1] at h; cases h
  | panic => simp only [Parser.parseArray, h1] at h; cases h
  | noFuel => simp only [Parser.parseArray, h1] at h; cases h

theorem parseF_succ_cons (fuel : Nat) (b : Nat) (p : List Nat) :
    Parser.parseF (fuel + 1) (b :: p) =
      if b = 0 then .err .incompleteInput
      else if b = 42 then Parser.parseArray (Parser.parseF fuel) p
      else if b = 36 then Parser.parseBulkString p
      else .err .unsupportedCommand := rfl

/-- A successful parse is stable under appending further input (and under
raising the fuel). -/
theorem parseF_extend : ∀ (fuel : Nat) {fuel' : Nat}, fuel ≤ fuel' →
    ∀ {x : List Nat} (t : List Nat) {v : RESPOutput} {r : List Nat},
      Parser.parseF fuel x = .ok (v, r) →
      Parser.parseF fuel' (x ++ t) = .ok (v, r ++ t) := by
  intro fuel
  induction fuel with
  | zero =>
    intro fuel' _ x t v r h
    rw [Parser.parseF] at h
    cases h
  | succ fuel ih =>
    intro fuel' hle x t v r h
    obtain ⟨fuel'', rfl⟩ : ∃ k, fuel' = k + 1 := ⟨fuel' - 1, by omega⟩
    have hle' : fuel ≤ fuel'' := by omega
    cases x with
    | nil => rw [Parser.parseF] at h; cases h
    | cons b p =>
      rw [parseF_succ_cons] at h
      rw [List.cons_append, parseF_succ_cons]
      by_cases hb0 : b = 0
      · rw [if_pos hb0] at h; cases h
      · rw [if_neg hb0] at h ⊢
        by_cases hb42 : b = 42
        · rw [if_pos hb42] at h ⊢
          exact parseArray_extend t (fun x v r hx => ih hle' t hx) h
        · rw [if_neg hb42] at h ⊢
          by_cases hb36 : b = 36
          · rw [if_pos hb36] at h ⊢
            exact parseBulkString_extend t h
          · rw [if_neg hb36] at h ⊢
            cases h

/-- No strict initial segment of a completely-consumed frame parses
successfully: the full parse would then have had a nonempty remainder. -/
theorem parse_take_not_ok {e : List Nat} {v : RESPOutput}
    (h : Parser.parse e = .ok (v, [])) {i : Nat} (hi : i < e.length) :
    ∀ (v' : RESPOutput) (r : List Nat), Parser.parse (e.take i) ≠ .ok (v', r) := by
  intro v' r hok
  rw [Parser.parse] at hok h
  have hlen : (e.take i).length = i := by
    rw [List.length_take]
    omega
  rw [hlen] at hok
  have hext := parseF_extend (i + 1) (show i + 1 ≤ e.length + 1 by omega) (e.drop i) hok
  rw [List.take_append_drop] at hext
  rw [h] at hext
  simp only [PRes.ok.injEq, Prod.mk.injEq] at hext
  have hnil : r ++ e.drop i = [] := hext.2.symm
  have : e.drop i = [] := (List.append_eq_nil.mp hnil).2
  have := List.drop_eq_nil_iff.mp this
  omega

/-- Dispatch equation: `$` sends the tail to the bulk-string parser. -/
theorem parse_bulk_dispatch (payload : List Nat) :
    Parser.parse (36 :: payload) = Parser.parseBulkString payload := rfl

/-- A well-formed bulk string over a CRLF-free ASCII payload decodes to
exactly the payload plus the unconsumed tail. -/
theorem parseBulkString_success {n : Nat} {s : List Nat} (tail : List Nat)
    (hcrlf : hasCrlf s = false) (hascii : ∀ b ∈ s, b < 0x80)
    (hlen : s.length = n) (hn : n < 2 ^ 32) :
    Parser.parseBulkString (natToDecBytes n ++ 13 :: 10 :: (s ++ 13 :: 10 :: tail)) =
      .ok (.bulkString s, tail) := by
  have hd := natToDecBytes_digits n
  have hnum : hasCrlf (natToDecBytes n) = false :=
    hasCrlf_eq_false _ (fun b hb => by have := hd b hb; omega)
  have h1 := parseUntilCrlf_split (natToDecBytes n) hnum (s ++ 13 :: 10 :: tail)
  have h2 := parseUntilCrlf_split s hcrlf tail
  have hlossyNum : utf8LossyBytes (natToDecBytes n) = natToDecBytes n :=
    utf8LossyBytes_ascii _ (fun b hb => by have := hd b hb; omega)
  have hlossyS : utf8LossyBytes s = s := utf8LossyBytes_ascii s hascii
  have hparse : rustParseNat (2 ^ 32 - 1) (natToDecBytes n) = some n :=
    rustParseNat_natToDecBytes (by omega)
  simp only [Parser.parseBulkString, h1, hlossyNum, hparse, h2, hlossyS, hlen,
    Nat.mod_eq_of_lt hn]
  simp

/-! ### Lemmas about the store -/

theorem Store.lookup_insert (st : Store) (k : List Nat) (e : Entry) :
    (st.insert k e).lookup k = some e := by
  simp [Store.insert, Store.lookup]

theorem Store.lookup_remove (st : Store) (k : List Nat) : (st.remove k).lookup k = none := by
  have hfind : List.find? (fun p => decide (p.1 = k))
      (List.filter (fun p => decide ¬ p.1 = k) st) = none := by
    rw [List.find?_eq_none]
    intro x hx
    have := (List.mem_filter.mp hx).2
    simpa using this
  simp [Store.remove, Store.lookup, hfind]

/-! ### Claim theorems -/

/-- C1: the connection handler does NOT recover from `IncompleteInput`.
`handle_connection` maps every decode error, `IncompleteInput` included,
through `?`, ending the read loop and closing the connection: on a first
read that decodes to `IncompleteInput` the handler returns the error and
never reads the further bytes, even though the very next read would have
carried a complete `PING` request (which on its own is handled fine). -/
theorem c1_handler_closes_on_incomplete :
    handleConnection [[0], [42, 49, 13, 10, 36, 52, 13, 10, 80, 73, 78, 71, 13, 10]] [] 0
        = .err (.parser .incompleteInput)
    ∧ handleConnection [[42, 49, 13, 10, 36, 52, 13, 10, 80, 73, 78, 71, 13, 10]] [] 0
        = .ok ([pongResp], []) :=
  ⟨rfl, rfl⟩

/-- C2 counterexample: the decoder does not decode the claimed eight frame
kinds.  Inputs starting with `+` `-` `:` `,` `#` `_` (well-formed simple
string, error, integer, double, boolean and null frames) all return the
bad-prefix error `UnsupportedCommand` instead of decoding. -/
theorem c2_counterexample :
    Parser.parse [43, 79, 75, 13, 10] = .err .unsupportedCommand
    ∧ Parser.parse [45, 69, 82, 13, 10] = .err .unsupportedCommand
    ∧ Parser.parse [58, 49, 13, 10] = .err .unsupportedCommand
    ∧ Parser.parse [44, 49, 13, 10] = .err .unsupportedCommand
    ∧ Parser.parse [35, 116, 13, 10] = .err .unsupportedCommand
    ∧ Parser.parse [95, 13, 10] = .err .unsupportedCommand :=
  ⟨rfl, rfl, rfl, rfl, rfl, rfl⟩

/-- C2 amended: the decoder dispatches only on `$` (36, bulk string) and
`*` (42, array); empty input and a leading NUL byte give `IncompleteInput`;
every other first byte gives the bad-prefix error `UnsupportedCommand`. -/
theorem c2_amended :
    Parser.parse [] = .err .incompleteInput
    ∧ (∀ p : List Nat, Parser.parse (0 :: p) = .err .incompleteInput)
    ∧ (∀ p : List Nat, Parser.parse (36 :: p) = Parser.parseBulkString p)
    ∧ (∀ p : List Nat,
        Parser.parse (42 :: p) = Parser.parseArray (Parser.parseF (p.length + 1)) p)
    ∧ (∀ (b : Nat) (p : List Nat), ¬ b = 0 → ¬ b = 42 → ¬ b = 36 →
        Parser.parse (b :: p) = .err .unsupportedCommand) := by
  refine ⟨rfl, fun p => rfl, fun p => rfl, fun p => rfl, ?_⟩
  intro b p h0 h42 h36
  have hd : Parser.parse (b :: p) = Parser.parseF (p.length + 1 + 1) (b :: p) := rfl
  rw [hd, parseF_succ_cons, if_neg h0, if_neg h42, if_neg h36]

/-- C2 witness: instantiating the catch-all clause at the `+` byte. -/
theorem c2_witness : Parser.parse (43 :: [79, 75, 13, 10]) = .err .unsupportedCommand :=
  c2_amended.2.2.2.2 43 [79, 75, 13, 10] (by decide) (by decide) (by decide)

/-- C3 counterexample: `$3\r\nabc\r\n` is a valid frame consumed in full,
but its strict 5-byte initial segment `$3\r\na` decodes to `CRLFNotFound`,
not to the claimed `Incomplete`. -/
theorem c3_counterexample :
    Parser.parse [36, 51, 13, 10, 97, 98, 99, 13, 10] = .ok (.bulkString [97, 98, 99], [])
    ∧ Parser.parse (List.take 5 [36, 51, 13, 10, 97, 98, 99, 13, 10]) = .err .crlfNotFound :=
  ⟨rfl, rfl⟩

/-- C3 amended: ranging over every valid frame (an input the decoder
consumes completely) and every strict initial segment of it, the decoder
never decodes successfully — it returns some error (`IncompleteInput`,
`CRLFNotFound` or `InvalidInput`, depending on the split) or panics, but
which error is not in general `Incomplete`. -/
theorem c3_amended {e : List Nat} {v : RESPOutput} (h : Parser.parse e = .ok (v, []))
    {i : Nat} (hi : i < e.length) (v' : RESPOutput) (r : List Nat) :
    Parser.parse (e.take i) ≠ .ok (v', r) :=
  parse_take_not_ok h hi v' r

/-- C3 witness: the 2-byte initial segment of the valid frame `*0\r\n`. -/
theorem c3_witness :
    Parser.parse (List.take 2 [42, 48, 13, 10]) ≠ .ok (.array [], []) :=
  c3_amended (e := [42, 48, 13, 10]) (v := .array []) rfl (i := 2) (by decide)
    (.array []) []

/-- C4 counterexample: a declared length of `-1` does not decode to a
null-bulk singleton (the parser has no null output at all): `-1` fails the
`u32` parse and yields `InvalidInput`.  A payload containing CR LF is not
treated opaquely either: `$4\r\nab\r\n\r\n` (declared length 4, payload
`ab\r\n`) stops at the first CR LF and yields `InvalidInput`. -/
theorem c4_counterexample :
    Parser.parse [36, 45, 49, 13, 10] = .err .invalidInput
    ∧ Parser.parse [36, 52, 13, 10, 97, 98, 13, 10, 13, 10] = .err .invalidInput :=
  ⟨rfl, rfl⟩

/-- C4 amended: for `$` `n` CRLF `payload` CRLF `tail` with `n` a
non-negative decimal that fits in `u32` and a payload that is CR LF-free
and ASCII (so the lossy UTF-8 conversion preserves it) of length `n`, the
decoder returns exactly the payload bytes plus the unconsumed tail;
declared length 0 yields the empty byte string, not null; declared length
`-1` yields `InvalidInput` (there is no null-bulk output). -/
theorem c4_amended (n : Nat) (s tail : List Nat) (hn : n < 2 ^ 32) (hlen : s.length = n)
    (hascii : ∀ b ∈ s, b < 0x80) (hcrlf : hasCrlf s = false) :
    Parser.parse (36 :: (natToDecBytes n ++ 13 :: 10 :: (s ++ 13 :: 10 :: tail)))
        = .ok (.bulkString s, tail)
    ∧ Parser.parse [36, 48, 13, 10, 13, 10] = .ok (.bulkString [], [])
    ∧ Parser.parse [36, 45, 49, 13, 10] = .err .invalidInput := by
  refine ⟨?_, rfl, rfl⟩
  rw [parse_bulk_dispatch]
  exact parseBulkString_success tail hcrlf hascii hlen hn

/-- C4 witness: `$3\r\nabc\r\n` decodes to the bulk string `abc`. -/
theorem c4_witness :
    Parser.parse (36 :: (natToDecBytes 3 ++ 13 :: 10 :: ([97, 98, 99] ++ 13 :: 10 :: [])))
        = .ok (.bulkString [97, 98, 99], []) :=
  (c4_amended 3 [97, 98, 99] [] (by decide) (by decide) (by decide) (by decide)).1

/-- C5: `set(K, V)` inserts the entry with no expiry (clearing any prior
expiry on `K`, whatever the prior map held), and a `get(K)` immediately
after, at any instant, returns `V`. -/
theorem c5_set_then_get (st : Store) (k : List Nat) (v : DataType) (now : Nat) :
    (Store.set st k v).lookup k = some ⟨v, none⟩
    ∧ (Store.get (Store.set st k v) k now).1 = some v := by
  have hlook : (Store.set st k v).lookup k = some ⟨v, none⟩ :=
    Store.lookup_insert st k ⟨v, none⟩
  refine ⟨hlook, ?_⟩
  simp [Store.get, Store.isExpiredAt, Store.getSecondPhase, hlook]

/-- C6: after `set_ex(K, V, T)` at instant `t0`, a `get(K)` at an instant
`t1 > t0 + T` returns missing, removes the entry from the backing map, and
`K` stays absent for any later `get` with no intervening write. -/
theorem c6_expiry (st : Store) (k : List Nat) (v : DataType) (ttl t0 t1 : Nat)
    (h : t1 > t0 + ttl) :
    (Store.get (Store.setEx st k v ttl t0) k t1).1 = none
    ∧ ((Store.get (Store.setEx st k v ttl t0) k t1).2).lookup k = none
    ∧ ∀ t2 : Nat,
        (Store.get ((Store.get (Store.setEx st k v ttl t0) k t1).2) k t2).1 = none := by
  have hlook : (Store.setEx st k v ttl t0).lookup k = some ⟨v, some (t0 + ttl)⟩ :=
    Store.lookup_insert st k ⟨v, some (t0 + ttl)⟩
  have hexp : (Store.setEx st k v ttl t0).isExpiredAt k t1 = true := by
    simp only [Store.isExpiredAt, hlook, decide_eq_true_eq]
    omega
  have hget : Store.get (Store.setEx st k v ttl t0) k t1
      = (none, (Store.setEx st k v ttl t0).remove k) := by
    simp [Store.get, hexp, Store.getSecondPhase]
  refine ⟨by rw [hget], by rw [hget]; exact Store.lookup_remove _ k, ?_⟩
  intro t2
  rw [hget]
  simp [Store.get, Store.isExpiredAt, Store.getSecondPhase, Store.lookup_remove]

/-- C6 witness: key `k`, ttl 5 set at instant 0, read at instant 6. -/
theorem c6_witness :
    (Store.get (Store.setEx [] [107] (DataType.str [118]) 5 0) [107] 6).1 = none :=
  (c6_expiry [] [107] (DataType.str [118]) 5 0 6 (by decide)).1

/-- C7: the second phase of `Store::get` does NOT recheck expiry.  In the
interleaving where phase 1 (reader lock, instant 10) observes the entry for
`K` as expired, then a concurrent `set(K, V')` replaces it with an
unexpired entry holding `V'`, phase 2 (writer lock, still carrying the
stale flag) removes `K` unconditionally: the freshly written value is
deleted and the read returns missing. -/
theorem c7_race_removes_concurrent_write :
    Store.isExpiredAt [([107], ⟨DataType.str [118], some 5⟩)] [107] 10 = true
    ∧ (Store.set [([107], ⟨DataType.str [118], some 5⟩)] [107] (DataType.str [119])).lookup
        [107] = some ⟨DataType.str [119], none⟩
    ∧ (Store.getSecondPhase
        (Store.set [([107], ⟨DataType.str [118], some 5⟩)] [107] (DataType.str [119]))
        [107] true).1 = none
    ∧ ((Store.getSecondPhase
        (Store.set [([107], ⟨DataType.str [118], some 5⟩)] [107] (DataType.str [119]))
        [107] true).2).lookup [107] = none :=
  ⟨rfl, rfl, rfl, rfl⟩

/-- C8 counterexample: with the unknown option keyword `XX` and the
unparseable duration `abc`, `parse_expiry` returns `InvalidArguments`
instead of the claimed "no expiry and no error", because the duration is
parsed before the keyword is examined. -/
theorem c8_counterexample :
    Command.parseExpiry [.bulkString [107], .bulkString [118], .bulkString [88, 88],
      .bulkString [97, 98, 99]] = .error .invalidArguments :=
  rfl

/-- C8 amended: for an arity-5 `SET` whose option pair is bulk strings
`(OPT, N)`, the duration `N` is parsed as `u64` FIRST: a failing parse is
`InvalidArguments` for every `OPT`, known or unknown.  When `N` parses,
case-insensitive `EX` gives `N` seconds, `PX` gives `N` milliseconds, and
any other `OPT` gives no expiry and no error. -/
theorem c8_amended (k v optS nS : List Nat) :
    (rustParseNat (2 ^ 64 - 1) nS = none →
      Command.parseExpiry [.bulkString k, .bulkString v, .bulkString optS, .bulkString nS]
        = .error .invalidArguments)
    ∧ (∀ n : Nat, rustParseNat (2 ^ 64 - 1) nS = some n → asciiUpper optS = [69, 88] →
      Command.parseExpiry [.bulkString k, .bulkString v, .bulkString optS, .bulkString nS]
        = .ok (some (n * 1000000000)))
    ∧ (∀ n : Nat, rustParseNat (2 ^ 64 - 1) nS = some n → asciiUpper optS = [80, 88] →
      Command.parseExpiry [.bulkString k, .bulkString v, .bulkString optS, .bulkString nS]
        = .ok (some (n * 1000000)))
    ∧ (∀ n : Nat, rustParseNat (2 ^ 64 - 1) nS = some n →
        ¬ asciiUpper optS = [69, 88] → ¬ asciiUpper optS = [80, 88] →
      Command.parseExpiry [.bulkString k, .bulkString v, .bulkString optS, .bulkString nS]
        = .ok none) := by
  have e64 : (2 : Nat) ^ 64 - 1 = 18446744073709551615 := by norm_num
  refine ⟨?_, ?_, ?_, ?_⟩
  · intro hn
    rw [e64] at hn
    simp [Command.parseExpiry, hn]
  · intro n hn hex
    rw [e64] at hn
    simp [Command.parseExpiry, hn, hex]
  · intro n hn hpx
    rw [e64] at hn
    have hex : ¬ asciiUpper optS = [69, 88] := by
      rw [hpx]
      decide
    simp [Command.parseExpiry, hn, hpx, hex]
  · intro n hn hex hpx
    rw [e64] at hn
    simp [Command.parseExpiry, hn, hex, hpx]

/-- C8 witness: `ex 2` parses to a 2-second expiry. -/
theorem c8_witness :
    Command.parseExpiry [.bulkString [107], .bulkString [118], .bulkString [101, 120],
      .bulkString [50]] = .ok (some (2 * 1000000000)) :=
  (c8_amended [107] [118] [101, 120] [50]).2.1 2 (by decide) (by decide)

/-- C9 counterexample: the header reader does not accept exactly `"0011"`:
the version field `+011` (also 4 bytes) parses as the number 11 and is
accepted too.  Nor does every other version field fail with
`UnsupportedVersion`: the non-numeric field `abcd` fails with
`InvalidMagicString`. -/
theorem c9_counterexample :
    RDBParser.parseHeader [82, 69, 68, 73, 83, 43, 48, 49, 49] = .ok []
    ∧ RDBParser.parseHeader [82, 69, 68, 73, 83, 97, 98, 99, 100]
        = .error .invalidMagicString :=
  ⟨rfl, rfl⟩

/-- C9 amended: after the `REDIS` magic, a 4-byte version field is accepted
exactly when it parses as a Rust `u32` (ASCII digits, one optional leading
`+`) equal to 11; a field parsing to another number fails with
`UnsupportedVersion`; a field that does not parse as `u32` fails with
`InvalidMagicString`. -/
theorem c9_amended (version rest : List Nat) (hlen : version.length = 4) :
    (rustParseNat (2 ^ 32 - 1) version = some 11 →
      RDBParser.parseHeader ([82, 69, 68, 73, 83] ++ (version ++ rest)) = .ok rest)
    ∧ (∀ m : Nat, rustParseNat (2 ^ 32 - 1) version = some m → ¬ m = 11 →
      RDBParser.parseHeader ([82, 69, 68, 73, 83] ++ (version ++ rest))
        = .error .unsupportedVersion)
    ∧ (rustParseNat (2 ^ 32 - 1) version = none →
      RDBParser.parseHeader ([82, 69, 68, 73, 83] ++ (version ++ rest))
        = .error .invalidMagicString) := by
  have hmagic : (([82, 69, 68, 73, 83] : List Nat) ++ (version ++ rest)).take 5
      = [82, 69, 68, 73, 83] := by
    simp
  have hdropm : (([82, 69, 68, 73, 83] : List Nat) ++ (version ++ rest)).drop 5
      = version ++ rest := by
    simp
  have htot : ¬ (([82, 69, 68, 73, 83] : List Nat) ++ (version ++ rest)).length < 5 := by
    simp [List.length_append]
  have hvlen : ¬ (version ++ rest).length < 4 := by
    simp [List.length_append, hlen]
  have htakev : (version ++ rest).take 4 = version := by
    rw [← hlen]
    exact List.take_left version rest
  have hdropv : (version ++ rest).drop 4 = rest := by
    rw [← hlen]
    exact List.drop_left version rest
  have hred : RDBParser.parseHeader ([82, 69, 68, 73, 83] ++ (version ++ rest))
      = (if ¬ validUtf8 version then Except.error RDBError.invalidMagicString
         else
           match rustParseNat (2 ^ 32 - 1) version with
           | none => Except.error RDBError.invalidMagicString
           | some versionNum =>
             if versionNum ≠ 11 then Except.error RDBError.unsupportedVersion
             else Except.ok rest) := by
    unfold RDBParser.parseHeader
    rw [hdropm, htakev, hdropv, hmagic]
    rw [if_neg htot, if_neg (show ¬ _ from fun hne => hne rfl), if_neg hvlen]
  have e32 : (2 : Nat) ^ 32 - 1 = 4294967295 := by norm_num
  refine ⟨?_, ?_, ?_⟩
  · intro hp
    have hv : validUtf8 version = true :=
      validUtf8_ascii version (rustParseNat_ascii hp)
    rw [e32] at hp
    rw [hred, if_neg (by simp [hv])]
    simp [hp]
  · intro m hp hm
    have hv : validUtf8 version = true :=
      validUtf8_ascii version (rustParseNat_ascii hp)
    rw [e32] at hp
    rw [hred, if_neg (by simp [hv])]
    simp [hp, hm]
  · intro hp
    by_cases hv : validUtf8 version = true
    · rw [e32] at hp
      rw [hred, if_neg (by simp [hv])]
      simp [hp]
    · rw [hred, if_pos (by simp [hv])]

/-- C9 witness: version field `+011` is accepted. -/
theorem c9_witness :
    RDBParser.parseHeader ([82, 69, 68, 73, 83] ++ ([43, 48, 49, 49] ++ [])) = .ok [] :=
  (c9_amended [43, 48, 49, 49] [] (by decide)).1 (by decide)

/-- C10: `Parser::parse` does not always return a value: on the input
`$3\r\n` — a bulk-string length line whose closing CR LF is followed by
zero remaining bytes — the second `parse_until_crlf` call receives the
empty slice, where the loop bound `input.len() - 1` underflows `usize` and
the function panics instead of returning a `ParserError`. -/
theorem c10_parse_panics :
    Parser.parse [36, 51, 13, 10] = .panic
    ∧ Parser.parseUntilCrlf [] = .panic :=
  ⟨rfl, rfl⟩

end CodecraftersRedis
